import Mathlib

/-!
Verification development for a bot-hosting service (single source file
src/index.js).  The JavaScript source is shallowly embedded: route
handlers become pure functions over explicit state, the in-memory
process map becomes an association list, Mongo collections become Lean
lists of records, JS strings are modelled as Lean strings or lists of
ASCII characters, and timestamps are natural numbers.
-/

deriving instance DecidableEq for Except

namespace Host

/-! ## String helpers

Library string primitives defined by well-founded recursion are
re-expressed structurally over the character list so that concrete
runs reduce inside the kernel. -/

/-- Splitting a character list on the path separator, as
String.prototype.split does: splitting the empty string yields one
empty segment. -/
def splitOnSlash : List Char → List (List Char)
  | [] => [[]]
  | c :: rest =>
    let r := splitOnSlash rest
    if c = '/' then [] :: r
    else
      match r with
      | [] => [[c]]
      | seg :: segs => (c :: seg) :: segs

/-- Model of String.prototype.endsWith as a character suffix test. -/
def strEndsWith (s suffix : String) : Bool :=
  suffix.toList.isSuffixOf s.toList

/-- Model of String.prototype.startsWith as a character head test. -/
def strStartsWith (s pre : String) : Bool :=
  pre.toList.isPrefixOf s.toList

/-! ## Path model (TenantFileStore)

Absolute filesystem paths are lists of segments.  `joinPath` models
Node `path.join(root, rel)` for an absolute `root`: the relative path
is split on the separator and folded onto the root, where a
parent-directory segment pops the last segment, and empty or
current-directory segments are ignored. -/

def splitPath (s : String) : List String :=
  (splitOnSlash s.toList).map (fun l => ⟨l⟩)

def joinSeg (acc : List String) (seg : String) : List String :=
  if seg = "" ∨ seg = "." then acc
  else if seg = ".." then acc.dropLast
  else acc ++ [seg]

def joinPath (root : List String) (rel : String) : List String :=
  (splitPath rel).foldl joinSeg root

/-- Errors of the file routes.  The source only ever produces the
first two; `validationError` is present in the error taxonomy so that
its absence from any outcome is expressible. -/
inductive FileError where
  | notFound
  | validationError
deriving DecidableEq

/-- A filesystem snapshot: absolute path segments paired with file
content. -/
abbrev FileSys := List (List String × String)

/-- Embedding of the GET /bot/:id/file handler body (src/index.js
lines 279-300), after the bot-ownership lookup succeeded: it joins the
query path onto the sandbox root with no validation, answers 404 when
the file does not exist, and otherwise returns the content. -/
def readFileRoute (fs : FileSys) (root : List String) (filePath : String) :
    Except FileError String :=
  let fullPath := joinPath root filePath
  match fs.lookup fullPath with
  | none => .error .notFound
  | some c => .ok c

/-- Embedding of the POST /bot/:id/file handler body (src/index.js
lines 303-320), after the bot-ownership lookup succeeded: it joins the
body path onto the sandbox root with no validation and writes the
content at the resolved absolute path, overwriting any previous
binding. -/
def writeFileRoute (fs : FileSys) (root : List String) (filePath : String)
    (content : String) : Except FileError FileSys :=
  let fullPath := joinPath root filePath
  .ok ((fullPath, content) :: fs.filter (fun p => ¬ p.1 = fullPath))

/-! ## Credential broker (AuthSession handling)

JS code strings are modelled as lists of characters so that the
character-wise `trim`/`toUpperCase` normalization of the login handler
can be reasoned about directly.  `String.prototype.trim` becomes
whitespace-stripping at both ends and `String.prototype.toUpperCase`
becomes the ASCII character-wise upper-casing. -/

def isWsChar (c : Char) : Bool :=
  c = ' ' ∨ c = '\t' ∨ c = '\n' ∨ c = '\r'

def charUpper (c : Char) : Char :=
  if 'a' ≤ c ∧ c ≤ 'z' then Char.ofNat (c.toNat - 32) else c

def upperChars (l : List Char) : List Char :=
  l.map charUpper

/-- Removal of trailing whitespace. -/
def dropTrailWs : List Char → List Char
  | [] => []
  | c :: rest =>
    let r := dropTrailWs rest
    if r = [] ∧ isWsChar c then [] else c :: r

/-- Model of `String.prototype.trim`: strip leading and trailing
whitespace. -/
def trimChars (l : List Char) : List Char :=
  dropTrailWs (l.dropWhile isWsChar)

/-- Model of `code.trim().toUpperCase()` from src/index.js line 132. -/
def cleanCode (l : List Char) : List Char :=
  upperChars (trimChars l)

/-- An AuthSession document.  Fields are the ones the source reads and
writes (code, discordId, username, avatar, used, usedAt) plus the
issuance timestamp the spec assigns to every AuthCode. -/
structure AuthCode where
  code : List Char
  discordId : String
  username : String
  avatar : String
  used : Bool
  usedAt : Option Nat
  issuedAt : Nat
deriving DecidableEq

/-- Outcomes of the login handler: the missing-input rendering and the
unknown-code rendering are distinct responses in the source (lines
124-130 versus 138-144). -/
inductive LoginError where
  | missingCode
  | notFound
deriving DecidableEq

/-- Model of `AuthSession.findOne { code: cleanCode, used: false }`:
the first stored document matching the cleaned code and still
unused. -/
def redeemLookup (store : List AuthCode) (input : List Char) : Option AuthCode :=
  store.find? (fun a => a.code = cleanCode input ∧ a.used = false)

/-- Marking the matched document used with a usage timestamp
(src/index.js lines 158-160): the first unused record carrying the
given code is updated in place. -/
def markFirstUsed (now : Nat) : List AuthCode → List Char → List AuthCode
  | [], _ => []
  | a :: rest, c =>
    if a.code = c ∧ a.used = false then
      { a with used := true, usedAt := some now } :: rest
    else
      a :: markFirstUsed now rest c

/-- Embedding of the POST /login handler (src/index.js lines 120-178):
reject an empty submission, normalize the code, look it up among
unused AuthSessions, and on a hit mark it used and answer with the
bound Discord identity.  No issuance-age check appears anywhere on
this path. -/
def redeem (store : List AuthCode) (input : List Char) (now : Nat) :
    Except LoginError (String × List AuthCode) :=
  if input = [] then .error .missingCode
  else
    match redeemLookup store input with
    | none => .error .notFound
    | some a => .ok (a.discordId, markFirstUsed now store (cleanCode input))

/-- Model of `AuthSession.updateMany { discordId, used: false }
{ used: true }` (src/index.js lines 770-773). -/
def invalidateAll (store : List AuthCode) (did : String) : List AuthCode :=
  store.map (fun a =>
    if a.discordId = did ∧ a.used = false then { a with used := true } else a)

/-- Embedding of the issuance part of handleVerificationCommand
(src/index.js lines 766-782): invalidate every unused code of the
identity, then persist a fresh unused AuthSession.  The generated code
string is passed in as a parameter. -/
def issue (store : List AuthCode) (did uname av : String) (newCode : List Char)
    (now : Nat) : List AuthCode :=
  invalidateAll store did ++ [⟨newCode, did, uname, av, false, none, now⟩]

/-- The invariant of the spec data model: no two distinct stored codes
are simultaneously unused for the same external identity. -/
def uniqueUnused (store : List AuthCode) : Prop :=
  store.Pairwise (fun a b => a.used = false → b.used = false → a.discordId ≠ b.discordId)

instance (store : List AuthCode) : Decidable (uniqueUnused store) :=
  List.instDecidablePairwise store

/-- Number of unused codes a given identity holds. -/
def countUnused (store : List AuthCode) (did : String) : Nat :=
  (store.filter (fun a => a.discordId = did ∧ a.used = false)).length

/-! ## Name ordering

localeCompare on file names is modelled as lexicographic comparison of
the code points. -/

def charListLE : List Char → List Char → Bool
  | [], _ => true
  | _ :: _, [] => false
  | a :: as, b :: bs =>
    if a.toNat < b.toNat then true
    else if b.toNat < a.toNat then false
    else charListLE as bs

def strLE (a b : String) : Bool :=
  charListLE a.toList b.toList

/-! ## Process supervisor -/

/-- The fixed ordered list of conventional entry filenames
(src/index.js line 908). -/
def possibleFiles : List String :=
  ["index.js", "app.js", "main.js", "bot.js"]

/-- Embedding of findMainFile (src/index.js lines 907-929).  The
sandbox directory is represented by its enumeration: the list of file
names in the order the filesystem reports them.  The conventional
names are probed in order; otherwise the first name of the enumeration
ending in .js is chosen; otherwise there is no entry file.  The source
returns the joined absolute path; the embedding returns the name. -/
def findMainFile (listing : List String) : Option String :=
  match possibleFiles.find? (fun f => listing.contains f) with
  | some f => some f
  | none => (listing.filter (fun f => strEndsWith f ".js")).head?

/-- Persisted workload record fields the supervisor touches. -/
inductive BotStatus where
  | stopped
  | running
deriving DecidableEq

structure BotRec where
  status : BotStatus
  lastStarted : Option Nat
  lastStopped : Option Nat
deriving DecidableEq

/-- Caller-visible outcomes of the start route.  `alreadyRunning` is a
success response in the source; `processError` is the catch branch
that reports a spawn failure. -/
inductive StartOutcome where
  | alreadyRunning
  | entryNotFound
  | processError
  | started
deriving DecidableEq

/-- Result of one start call: the response, the process map, the
persisted record, and how many times spawn was invoked. -/
structure StartRes where
  outcome : StartOutcome
  procs : List (String × Nat)
  bot : BotRec
  attempts : Nat
deriving DecidableEq

/-- The possible outcomes of one spawn invocation, following Node
child_process semantics: `ok` is a successfully running child;
`syncFault` is a synchronous throw out of the spawn call itself;
`asyncFault` is an OS-level failure (the ENOENT/EACCES/EAGAIN class)
in which spawn still returns a child-process object immediately and
the failure is delivered later as an error event on that object. -/
inductive SpawnOutcome where
  | ok (handle : Nat)
  | syncFault (msg : String)
  | asyncFault (handle : Nat) (msg : String)
deriving DecidableEq

/-- Embedding of the POST /bot/:id/start handler (src/index.js lines
484-536), after the bot-ownership lookup succeeded.  The process map
is an association list keyed by workload id.  A spawn is attempted at
most once; its outcome is passed in as `spawnRes`.  When a handle is
already present the handler answers success without touching anything;
when the entry file is missing it answers failure; when spawn throws
synchronously, the catch branch answers failure before the handle is
registered or the record saved.  An asynchronous OS-level spawn
failure is invisible at handler time, so the handler proceeds exactly
as on success: it registers the handle, persists status running, and
answers success; the source attaches no error-event listener (only
stdout, stderr and close, lines 509-521), so the later error event is
never surfaced to the caller — it escalates as an uncaught exception
(src/index.js lines 1029-1032). -/
def startBotI (procs : List (String × Nat)) (botId : String) (bot : BotRec)
    (listing : List String) (spawnRes : SpawnOutcome) (now : Nat) : StartRes :=
  if (procs.lookup botId).isSome then
    ⟨.alreadyRunning, procs, bot, 0⟩
  else
    match findMainFile listing with
    | none => ⟨.entryNotFound, procs, bot, 0⟩
    | some _ =>
      match spawnRes with
      | .syncFault _ => ⟨.processError, procs, bot, 1⟩
      | .ok h =>
        ⟨.started, (botId, h) :: procs,
          { bot with status := .running, lastStarted := some now }, 1⟩
      | .asyncFault h _ =>
        ⟨.started, (botId, h) :: procs,
          { bot with status := .running, lastStarted := some now }, 1⟩

/-- The inputs of one start call, for reasoning about sequences of
calls against a shared process map. -/
structure StartCall where
  botId : String
  bot : BotRec
  listing : List String
  spawnRes : SpawnOutcome
  now : Nat

/-- Folding a sequence of start calls over the process map. -/
def runStarts (procs : List (String × Nat)) (calls : List StartCall) :
    List (String × Nat) :=
  calls.foldl (fun ps c => (startBotI ps c.botId c.bot c.listing c.spawnRes c.now).procs) procs

/-- Outcome of the stop route: the response flag and the resulting
state.  Once the bot lookup has succeeded, the handler always reaches
its success response. -/
structure StopRes where
  ok : Bool
  procs : List (String × Nat)
  bot : BotRec
deriving DecidableEq

/-- Embedding of the POST /bot/:id/stop handler (src/index.js lines
539-566), after the bot-ownership lookup succeeded: when a handle
exists it is signalled and removed; in every case the record is
persisted with status stopped and a fresh lastStopped timestamp, and
the response is a success. -/
def stopBot (procs : List (String × Nat)) (botId : String) (bot : BotRec)
    (now : Nat) : StopRes :=
  let procs2 :=
    if (procs.lookup botId).isSome then procs.filter (fun p => ¬ p.1 = botId)
    else procs
  ⟨true, procs2, { bot with status := .stopped, lastStopped := some now }⟩

/-! ## Directory structure listing -/

/-- A raw directory child as the filesystem reports it. -/
structure FSEntry where
  name : String
  isDir : Bool
  size : Nat
deriving DecidableEq

inductive EntryKind where
  | directory
  | file
deriving DecidableEq

/-- A produced listing entry (name, kind, byte size, lowercase
extension) as pushed by getDirectoryStructure. -/
structure DirEntry where
  name : String
  kind : EntryKind
  size : Nat
  extension : String
deriving DecidableEq

/-- ASCII lower-casing of one character, the character-wise model of
String.prototype.toLowerCase. -/
def charLower (c : Char) : Char :=
  if 'A' ≤ c ∧ c ≤ 'Z' then Char.ofNat (c.toNat + 32) else c

/-- Model of path.extname on bare file names composed with
toLowerCase, as in src/index.js line 967: the suffix from the last
dot on, or the empty string when the name holds no dot, or only its
leading dot. -/
def extnameLower (s : String) : String :=
  let l := s.toList
  let post := l.reverse.takeWhile (fun c => ¬ c = '.')
  if post.length = l.length then ""
  else if l.head? = some '.' ∧ post.length + 1 = l.length then ""
  else ⟨('.' :: post.reverse).map charLower⟩

def entryOf (e : FSEntry) : DirEntry :=
  if e.isDir then ⟨e.name, .directory, 0, ""⟩
  else ⟨e.name, .file, e.size, extnameLower e.name⟩

/-- The sort comparator of src/index.js lines 976-980 as a
before-or-equal test: directories come before files; within one kind
names are compared. -/
def entryLE (a b : DirEntry) : Bool :=
  match a.kind, b.kind with
  | .directory, .file => true
  | .file, .directory => false
  | _, _ => strLE a.name b.name

/-- The comparator as a relation, for use with the sort. -/
def entryLERel (a b : DirEntry) : Prop :=
  entryLE a b = true

instance : DecidableRel entryLERel :=
  fun a b => instDecidableEqBool (entryLE a b) true

/-- Embedding of getDirectoryStructure (src/index.js lines 931-987):
skip node_modules and hidden entries, map each remaining child to its
listing entry, and sort with the comparator.  JS Array.prototype.sort
with a consistent comparator produces the stable sorted order, here
realized by a stable insertion sort. -/
def getDirectoryStructure (items : List FSEntry) : List DirEntry :=
  List.insertionSort entryLERel
    ((items.filter
      (fun e => ¬ e.name = "node_modules" ∧ ¬ strStartsWith e.name ".")).map entryOf)

/-! ## Workload creation -/

/-- Embedding of getBotLimit (src/index.js lines 902-905). -/
def getBotLimit (tier : String) : Nat :=
  if tier = "free" then 1
  else if tier = "premium" then 5
  else if tier = "ultimate" then 10
  else 1

/-- Owner-visible persistent state touched by the create route: the
set of sandbox directories on disk and the owner's workload records in
the registry. -/
structure TenantState where
  dirs : List (List String)
  records : List String
deriving DecidableEq

inductive CreateOutcome where
  | missingName
  | conflict
  | missingContent
  | created
deriving DecidableEq

/-- Embedding of the POST /bot/create handler (src/index.js lines
392-481): require a name; count the owner's workloads against the
tier limit and reject on reaching it before any directory or record is
touched; otherwise create the sandbox directory, and only with an
uploaded file or inline code also write the content and persist the
registry record. -/
def createBot (st : TenantState) (tier ownerId : String)
    (botName : Option String) (content : Option String) :
    CreateOutcome × TenantState :=
  match botName with
  | none => (.missingName, st)
  | some name =>
    if st.records.length ≥ getBotLimit tier then (.conflict, st)
    else
      let dir := ["bots", ownerId, name]
      let st1 : TenantState := { st with dirs := st.dirs ++ [dir] }
      match content with
      | none => (.missingContent, st1)
      | some _ => (.created, { st1 with records := st1.records ++ [name] })

/-- The name comparison as a relation, for use with the sort. -/
def strLERel (a b : String) : Prop :=
  strLE a b = true

instance : DecidableRel strLERel :=
  fun a b => instDecidableEqBool (strLE a b) true

/-- Modelled from the spec for refinement comparison (component design
4.1 and design note 9): entry resolution whose fallback scans a stable
sorted enumeration instead of the raw one. -/
def findMainFileSpec (listing : List String) : Option String :=
  match possibleFiles.find? (fun f => listing.contains f) with
  | some f => some f
  | none =>
    ((List.insertionSort strLERel listing).filter (fun f => strEndsWith f ".js")).head?

/-! ## Helper lemmas about characters and normalization -/

theorem toNat_charOfNat (n : Nat) (h : n.isValidChar) : (Char.ofNat n).toNat = n := by
  simp [Char.ofNat, dif_pos h, Char.ofNatAux, Char.toNat, UInt32.ofNat', UInt32.toNat,
    BitVec.ofNatLt]

theorem le_char_a_iff (c : Char) : ('a' ≤ c) ↔ 97 ≤ c.toNat := by
  rw [Char.le_def, UInt32.le_def]
  simp [Char.toNat, UInt32.toNat, BitVec.le_def]

theorem le_char_z_iff (c : Char) : (c ≤ 'z') ↔ c.toNat ≤ 122 := by
  rw [Char.le_def, UInt32.le_def]
  simp [Char.toNat, UInt32.toNat, BitVec.le_def]

theorem char_eq_iff_toNat (c d : Char) : c = d ↔ c.toNat = d.toNat := by
  constructor
  · intro h; rw [h]
  · intro h
    exact Char.ext (UInt32.toNat.inj h)

theorem isWsChar_iff_toNat (c : Char) :
    isWsChar c = true ↔ (c.toNat = 32 ∨ c.toNat = 9 ∨ c.toNat = 10 ∨ c.toNat = 13) := by
  simp only [isWsChar, decide_eq_true_eq]
  rw [char_eq_iff_toNat c ' ', char_eq_iff_toNat c '\t', char_eq_iff_toNat c '\n',
    char_eq_iff_toNat c '\r']
  simp only [show (' ').toNat = 32 from rfl, show ('\t').toNat = 9 from rfl,
    show ('\n').toNat = 10 from rfl, show ('\r').toNat = 13 from rfl]

theorem isWsChar_charUpper (c : Char) : isWsChar (charUpper c) = isWsChar c := by
  by_cases h : 'a' ≤ c ∧ c ≤ 'z'
  · have h1 : 97 ≤ c.toNat := (le_char_a_iff c).mp h.1
    have h2 : c.toNat ≤ 122 := (le_char_z_iff c).mp h.2
    have hv : (c.toNat - 32).isValidChar := Or.inl (by omega)
    have hup : (charUpper c).toNat = c.toNat - 32 := by
      rw [charUpper, if_pos h]
      exact toNat_charOfNat _ hv
    have lhs : isWsChar (charUpper c) = false := by
      rw [Bool.eq_false_iff]
      intro hw
      have := (isWsChar_iff_toNat _).mp hw
      omega
    have rhs : isWsChar c = false := by
      rw [Bool.eq_false_iff]
      intro hw
      have := (isWsChar_iff_toNat _).mp hw
      omega
    rw [lhs, rhs]
  · rw [charUpper, if_neg h]

theorem charUpper_idem (c : Char) : charUpper (charUpper c) = charUpper c := by
  by_cases h : 'a' ≤ c ∧ c ≤ 'z'
  · have h1 : 97 ≤ c.toNat := (le_char_a_iff c).mp h.1
    have h2 : c.toNat ≤ 122 := (le_char_z_iff c).mp h.2
    have hv : (c.toNat - 32).isValidChar := Or.inl (by omega)
    have hup : (charUpper c).toNat = c.toNat - 32 := by
      rw [charUpper, if_pos h]
      exact toNat_charOfNat _ hv
    have hno : ¬ ('a' ≤ charUpper c ∧ charUpper c ≤ 'z') := by
      intro hc
      have := (le_char_a_iff _).mp hc.1
      omega
    rw [charUpper, if_neg hno]
  · have he : charUpper c = c := by rw [charUpper, if_neg h]
    rw [he, he]

theorem upperChars_idem (l : List Char) : upperChars (upperChars l) = upperChars l := by
  simp only [upperChars, List.map_map]
  apply List.map_congr_left
  intro c _
  exact charUpper_idem c

theorem dropWhile_upperChars (l : List Char) :
    (upperChars l).dropWhile isWsChar = upperChars (l.dropWhile isWsChar) := by
  induction l with
  | nil => rfl
  | cons c t ih =>
    simp only [upperChars, List.map_cons, List.dropWhile_cons, isWsChar_charUpper]
    by_cases h : isWsChar c = true
    · rw [h]
      simpa [upperChars] using ih
    · rw [Bool.eq_false_iff.mpr h]
      simp [upperChars]

theorem dropTrailWs_upperChars (l : List Char) :
    dropTrailWs (upperChars l) = upperChars (dropTrailWs l) := by
  induction l with
  | nil => rfl
  | cons c t ih =>
    simp only [upperChars, List.map_cons, dropTrailWs]
    rw [show (List.map charUpper t) = upperChars t from rfl, ih]
    simp only [isWsChar_charUpper]
    by_cases h : upperChars (dropTrailWs t) = [] ∧ isWsChar c = true
    · have ht : dropTrailWs t = [] := by
        have := h.1
        simpa [upperChars] using this
      rw [if_pos h, if_pos ⟨ht, h.2⟩]
      rfl
    · have h2 : ¬ (dropTrailWs t = [] ∧ isWsChar c = true) := by
        intro hc
        exact h ⟨by simp [upperChars, hc.1], hc.2⟩
      rw [if_neg h, if_neg h2]
      simp [upperChars]

theorem trimChars_upperChars (l : List Char) :
    trimChars (upperChars l) = upperChars (trimChars l) := by
  rw [trimChars, trimChars, dropWhile_upperChars, dropTrailWs_upperChars]

theorem dropWhile_ws_idem (l : List Char) :
    (l.dropWhile isWsChar).dropWhile isWsChar = l.dropWhile isWsChar := by
  induction l with
  | nil => rfl
  | cons c t ih =>
    by_cases h : isWsChar c = true
    · rw [List.dropWhile_cons, if_pos h]
      exact ih
    · rw [List.dropWhile_cons, if_neg h, List.dropWhile_cons, if_neg h]

theorem dropTrailWs_idem (l : List Char) : dropTrailWs (dropTrailWs l) = dropTrailWs l := by
  induction l with
  | nil => rfl
  | cons c t ih =>
    simp only [dropTrailWs]
    by_cases h : dropTrailWs t = [] ∧ isWsChar c = true
    · rw [if_pos h]
      rfl
    · rw [if_neg h]
      simp only [dropTrailWs, ih]
      rw [if_neg h]

theorem dropWhile_dropTrailWs (l : List Char) (h : l.dropWhile isWsChar = l) :
    (dropTrailWs l).dropWhile isWsChar = dropTrailWs l := by
  cases l with
  | nil => rfl
  | cons c t =>
    have hc : isWsChar c = false := by
      by_contra hcc
      have hct : isWsChar c = true := by
        cases hx : isWsChar c
        · exact absurd hx hcc
        · rfl
      rw [List.dropWhile_cons, if_pos hct] at h
      have hlen := (List.dropWhile_sublist (l := t) isWsChar).length_le
      rw [h] at hlen
      simp at hlen
    simp only [dropTrailWs]
    by_cases hcase : dropTrailWs t = [] ∧ isWsChar c = true
    · rw [if_pos hcase]
      rfl
    · rw [if_neg hcase, List.dropWhile_cons, if_neg (by simp [hc])]

theorem trimChars_idem (l : List Char) : trimChars (trimChars l) = trimChars l := by
  simp only [trimChars]
  rw [dropWhile_dropTrailWs _ (dropWhile_ws_idem l), dropTrailWs_idem]

theorem cleanCode_of_normalized (s : List Char) :
    cleanCode (trimChars (upperChars s)) = cleanCode s := by
  rw [cleanCode, trimChars_upperChars, trimChars_upperChars, trimChars_idem, cleanCode,
    upperChars_idem]

theorem upperChars_ne_nil (l : List Char) (h : l ≠ []) : upperChars l ≠ [] := by
  intro hc
  exact h (by simpa [upperChars] using hc)

/-! ## Helper lemmas about the name ordering -/

theorem charListLE_total (a b : List Char) : charListLE a b || charListLE b a := by
  induction a generalizing b with
  | nil => simp [charListLE]
  | cons x xs ih =>
    cases b with
    | nil => simp [charListLE]
    | cons y ys =>
      by_cases h1 : x.toNat < y.toNat
      · simp [charListLE, h1]
      · by_cases h2 : y.toNat < x.toNat
        · simp [charListLE, h1, h2]
        · have := ih ys
          simp [charListLE, h1, h2]
          simpa using this

theorem charListLE_trans (a b c : List Char) (hab : charListLE a b) (hbc : charListLE b c) :
    charListLE a c := by
  induction a generalizing b c with
  | nil => simp [charListLE]
  | cons x xs ih =>
    cases b with
    | nil => simp [charListLE] at hab
    | cons y ys =>
      cases c with
      | nil => simp [charListLE] at hbc
      | cons z zs =>
        by_cases h1 : x.toNat < y.toNat
        · by_cases h2 : y.toNat < z.toNat
          · simp [charListLE, show x.toNat < z.toNat by omega]
          · by_cases h3 : z.toNat < y.toNat
            · simp [charListLE, h2, h3] at hbc
            · have : y.toNat = z.toNat := by omega
              simp [charListLE, show x.toNat < z.toNat by omega]
        · by_cases h4 : y.toNat < x.toNat
          · simp [charListLE, h1, h4] at hab
          · have hxy : x.toNat = y.toNat := by omega
            by_cases h2 : y.toNat < z.toNat
            · simp [charListLE, show x.toNat < z.toNat by omega]
            · by_cases h3 : z.toNat < y.toNat
              · simp [charListLE, h2, h3] at hbc
              · have hyz : y.toNat = z.toNat := by omega
                simp only [charListLE, if_neg h1, if_neg h4] at hab
                simp only [charListLE, if_neg h2, if_neg h3] at hbc
                simp only [charListLE, if_neg (show ¬ x.toNat < z.toNat by omega),
                  if_neg (show ¬ z.toNat < x.toNat by omega)]
                exact ih ys zs hab hbc

theorem strLE_total (a b : String) : strLE a b || strLE b a :=
  charListLE_total a.toList b.toList

theorem strLE_trans (a b c : String) (hab : strLE a b) (hbc : strLE b c) : strLE a c :=
  charListLE_trans a.toList b.toList c.toList hab hbc

theorem entryLE_total (a b : DirEntry) : entryLE a b || entryLE b a := by
  rcases a with ⟨an, ak, asz, ae⟩
  rcases b with ⟨bn, bk, bsz, be⟩
  cases ak <;> cases bk <;> simp [entryLE] <;> simpa using strLE_total an bn

theorem entryLE_trans (a b c : DirEntry) (hab : entryLE a b) (hbc : entryLE b c) :
    entryLE a c := by
  rcases a with ⟨an, ak, asz, ae⟩
  rcases b with ⟨bn, bk, bsz, be⟩
  rcases c with ⟨cn, ck, csz, ce⟩
  cases ak <;> cases bk <;> cases ck <;>
    simp [entryLE] at hab hbc ⊢ <;>
    exact strLE_trans _ _ _ hab hbc

/-! ## Helper lemmas about the auth store -/

theorem invalidate_discordId (did : String) (a : AuthCode) :
    ((fun x : AuthCode =>
      if x.discordId = did ∧ x.used = false then { x with used := true } else x) a).discordId =
      a.discordId := by
  by_cases h : a.discordId = did ∧ a.used = false <;> simp [h]

theorem invalidate_code (did : String) (a : AuthCode) :
    ((fun x : AuthCode =>
      if x.discordId = did ∧ x.used = false then { x with used := true } else x) a).code =
      a.code := by
  by_cases h : a.discordId = did ∧ a.used = false <;> simp [h]

theorem invalidate_unused (did : String) (a : AuthCode)
    (h : ((fun x : AuthCode =>
      if x.discordId = did ∧ x.used = false then { x with used := true } else x) a).used =
        false) :
    a.used = false ∧ a.discordId ≠ did := by
  by_cases hc : a.discordId = did ∧ a.used = false
  · simp [hc] at h
  · simp [hc] at h
    constructor
    · exact h
    · intro hd
      exact hc ⟨hd, h⟩

theorem uniqueUnused_invalidateAll (store : List AuthCode) (did : String)
    (h : uniqueUnused store) : uniqueUnused (invalidateAll store did) := by
  apply List.Pairwise.map _ _ h
  intro a b hr hfa hfb
  rw [invalidate_discordId, invalidate_discordId]
  exact hr (invalidate_unused did a hfa).1 (invalidate_unused did b hfb).1

theorem uniqueUnused_issue (store : List AuthCode) (did uname av : String)
    (newCode : List Char) (now : Nat) (h : uniqueUnused store) :
    uniqueUnused (issue store did uname av newCode now) := by
  rw [issue, uniqueUnused, List.pairwise_append]
  refine ⟨uniqueUnused_invalidateAll store did h, by simp, ?_⟩
  intro a ha b hb hua hub
  simp only [List.mem_singleton] at hb
  rw [invalidateAll] at ha
  obtain ⟨a0, _, rfl⟩ := List.mem_map.mp ha
  rw [invalidate_discordId]
  have := (invalidate_unused did a0 hua).2
  rw [hb]
  exact this

theorem countUnused_le_one (store : List AuthCode) (h : uniqueUnused store) (d : String) :
    countUnused store d ≤ 1 := by
  induction store with
  | nil => simp [countUnused]
  | cons a rest ih =>
    rw [uniqueUnused, List.pairwise_cons] at h
    rw [countUnused, List.filter_cons]
    by_cases hp : a.discordId = d ∧ a.used = false
    · rw [if_pos (by simpa using hp)]
      have hnone : rest.filter (fun b => decide (b.discordId = d ∧ b.used = false)) = [] := by
        rw [List.filter_eq_nil_iff]
        intro b hb
        simp only [decide_eq_true_eq, not_and]
        intro hbd hbu
        exact absurd (hp.1.trans hbd.symm) (h.1 b hb hp.2 hbu)
      rw [hnone]
      simp
    · rw [if_neg (by simpa using hp)]
      exact ih (h.2)

theorem redeem_issue_notFound (store : List AuthCode) (did uname av : String)
    (newCode : List Char) (now now2 : Nat) (a : AuthCode) (input : List Char)
    (hcode : ∀ b ∈ store, b.code = a.code → b.discordId = did)
    (hnew : newCode ≠ a.code)
    (hin : cleanCode input = a.code) (hne : input ≠ []) :
    redeem (issue store did uname av newCode now) input now2 = .error .notFound := by
  rw [redeem, if_neg hne]
  have hlook : redeemLookup (issue store did uname av newCode now) input = none := by
    rw [redeemLookup, List.find?_eq_none]
    intro x hx
    rw [issue, List.mem_append] at hx
    simp only [decide_eq_true_eq, not_and]
    intro hxc
    rcases hx with hx | hx
    · rw [invalidateAll] at hx
      obtain ⟨b, hb, rfl⟩ := List.mem_map.mp hx
      rw [invalidate_code] at hxc
      rw [hin] at hxc
      have hbdid : b.discordId = did := hcode b hb hxc
      intro hu
      have := invalidate_unused did b hu
      exact this.2 hbdid
    · simp only [List.mem_singleton] at hx
      rw [hx] at hxc
      simp only at hxc
      rw [hin] at hxc
      exact absurd hxc hnew
  rw [hlook]

/-! ## Helper lemmas about the process map -/

theorem lookup_none_not_key (ps : List (String × Nat)) (k : String)
    (h : ps.lookup k = none) : k ∉ ps.map Prod.fst := by
  induction ps with
  | nil => simp
  | cons p t ih =>
    rw [List.lookup] at h
    cases hk : (k == p.1) with
    | true =>
      rw [hk] at h
      simp at h
    | false =>
      rw [hk] at h
      simp only [List.map_cons, List.mem_cons]
      rintro (hc | hc)
      · rw [beq_iff_eq.mpr hc] at hk
        simp at hk
      · exact ih h hc

theorem startBotI_keys_nodup (ps : List (String × Nat)) (botId : String) (bot : BotRec)
    (listing : List String) (spawnRes : SpawnOutcome) (now : Nat)
    (h : (ps.map Prod.fst).Nodup) :
    ((startBotI ps botId bot listing spawnRes now).procs.map Prod.fst).Nodup := by
  rw [startBotI.eq_def]
  by_cases hs : (ps.lookup botId).isSome
  · rw [if_pos hs]
    exact h
  · rw [if_neg hs]
    have hkey : botId ∉ ps.map Prod.fst := by
      apply lookup_none_not_key
      cases hl : ps.lookup botId with
      | none => rfl
      | some v => rw [hl] at hs; exact absurd rfl hs
    cases findMainFile listing with
    | none => exact h
    | some e =>
      cases spawnRes with
      | syncFault _ => exact h
      | ok hd =>
        simp only [List.map_cons, List.nodup_cons]
        exact ⟨hkey, h⟩
      | asyncFault hd _ =>
        simp only [List.map_cons, List.nodup_cons]
        exact ⟨hkey, h⟩

theorem runStarts_keys_nodup (calls : List StartCall) (ps : List (String × Nat))
    (h : (ps.map Prod.fst).Nodup) :
    ((runStarts ps calls).map Prod.fst).Nodup := by
  induction calls generalizing ps with
  | nil => exact h
  | cons c rest ih =>
    rw [runStarts, List.foldl_cons]
    exact ih _ (startBotI_keys_nodup ps c.botId c.bot c.listing c.spawnRes c.now h)

theorem keys_nodup_filter_le_one (ps : List (String × Nat))
    (h : (ps.map Prod.fst).Nodup) (wid : String) :
    (ps.filter (fun p => p.1 = wid)).length ≤ 1 := by
  induction ps with
  | nil => simp
  | cons p t ih =>
    simp only [List.map_cons, List.nodup_cons] at h
    rw [List.filter_cons]
    by_cases hp : p.1 = wid
    · rw [if_pos (by simpa using hp)]
      have ht : t.filter (fun q => decide (q.1 = wid)) = [] := by
        rw [List.filter_eq_nil_iff]
        intro q hq
        simp only [decide_eq_true_eq]
        intro hqw
        exact h.1 (by rw [hp, ← hqw]; exact List.mem_map_of_mem Prod.fst hq)
      rw [ht]
      simp
    · rw [if_neg (by simpa using hp)]
      exact ih h.2

/-! ## Claims -/

/-- Claim C1 evaluation: the file read and write routes accept the
parent-directory escape ../../secret against the sandbox root
root/bots/u/mybot.  The read succeeds on a file outside the root, the
write lands at root/bots/secret which is outside the root, and no
ValidationError is produced, refuting the claimed rejection. -/
theorem c1_escape_accepted :
    readFileRoute [(["root", "bots", "secret"], "s")] ["root", "bots", "u", "mybot"]
      "../../secret" = .ok "s" ∧
    writeFileRoute [] ["root", "bots", "u", "mybot"] "../../secret" "x" =
      .ok [(["root", "bots", "secret"], "x")] ∧
    (["root", "bots", "u", "mybot"].isPrefixOf ["root", "bots", "secret"]) = false := by
  decide

/-- Claim C2 evaluation: a structurally valid, still unused code
issued at time 0 redeems successfully at time 600, twice the
five-minute TTL of 300 seconds: the login path performs no
issuance-age check, contradicting the claimed expiry rejection. -/
theorem c2_expired_code_redeems :
    redeem [⟨"AB12CD".toList, "u1", "alice", "av", false, none, 0⟩] ("AB12CD".toList) 600 =
      .ok ("u1", [⟨"AB12CD".toList, "u1", "alice", "av", true, some 600, 0⟩]) ∧
    600 - 0 > 300 := by
  decide

/-- Claim C3: issuing a fresh code marks every previously unused code
of the identity as used, so the at-most-one-unused-code-per-identity
invariant holds after the issue, and redeeming an earlier code of that
identity afterwards fails with NotFound (given that a stored code
string determines its identity and the fresh code differs from the
earlier one). -/
theorem c3_issue_invalidates_previous (store : List AuthCode) (did uname av : String)
    (newCode : List Char) (now now2 : Nat) (a : AuthCode) (input : List Char)
    (hstore : uniqueUnused store)
    (_ha : a ∈ store) (_haid : a.discordId = did)
    (hcode : ∀ b ∈ store, b.code = a.code → b.discordId = did)
    (hnew : newCode ≠ a.code)
    (hin : cleanCode input = a.code) (hne : input ≠ []) :
    uniqueUnused (issue store did uname av newCode now) ∧
    (∀ d, countUnused (issue store did uname av newCode now) d ≤ 1) ∧
    redeem (issue store did uname av newCode now) input now2 = .error .notFound := by
  refine ⟨uniqueUnused_issue store did uname av newCode now hstore, ?_, ?_⟩
  · intro d
    exact countUnused_le_one _ (uniqueUnused_issue store did uname av newCode now hstore) d
  · exact redeem_issue_notFound store did uname av newCode now now2 a input hcode hnew hin hne

theorem c3_witness :
    uniqueUnused
      (issue [⟨"OLD123".toList, "u1", "n", "v", false, none, 0⟩] "u1" "n" "v"
        ("NEW456".toList) 50) ∧
    redeem
      (issue [⟨"OLD123".toList, "u1", "n", "v", false, none, 0⟩] "u1" "n" "v"
        ("NEW456".toList) 50) ("OLD123".toList) 60 = .error .notFound :=
  ⟨(c3_issue_invalidates_previous [⟨"OLD123".toList, "u1", "n", "v", false, none, 0⟩]
      "u1" "n" "v" ("NEW456".toList) 50 60 ⟨"OLD123".toList, "u1", "n", "v", false, none, 0⟩
      ("OLD123".toList) (by decide) (by decide) (by decide) (by decide) (by decide)
      (by decide) (by decide)).1,
   (c3_issue_invalidates_previous [⟨"OLD123".toList, "u1", "n", "v", false, none, 0⟩]
      "u1" "n" "v" ("NEW456".toList) 50 60 ⟨"OLD123".toList, "u1", "n", "v", false, none, 0⟩
      ("OLD123".toList) (by decide) (by decide) (by decide) (by decide) (by decide)
      (by decide) (by decide)).2.2⟩

/-- Claim C4: when a live handle already exists, start answers success
as a no-op with zero spawn attempts and leaves the map and the record
untouched; and from a well-formed map, any sequence of start calls
leaves at most one handle per workload id. -/
theorem c4_start_idempotent (procs : List (String × Nat)) (botId : String) (bot : BotRec)
    (listing : List String) (spawnRes : SpawnOutcome) (now : Nat) :
    ((procs.lookup botId).isSome →
      startBotI procs botId bot listing spawnRes now = ⟨.alreadyRunning, procs, bot, 0⟩) ∧
    ((procs.map Prod.fst).Nodup →
      ∀ calls wid, ((runStarts procs calls).filter (fun p => p.1 = wid)).length ≤ 1) := by
  constructor
  · intro h
    rw [startBotI.eq_def, if_pos h]
  · intro h calls wid
    exact keys_nodup_filter_le_one _ (runStarts_keys_nodup calls procs h) wid

theorem c4_witness :
    startBotI [("b1", 7)] "b1" ⟨.stopped, none, none⟩ [] (.ok 9) 3 =
      ⟨.alreadyRunning, [("b1", 7)], ⟨.stopped, none, none⟩, 0⟩ ∧
    ((runStarts [("b1", 7)] [⟨"b1", ⟨.stopped, none, none⟩, ["index.js"], .ok 9, 3⟩]).filter
      (fun p => p.1 = "b1")).length ≤ 1 :=
  ⟨(c4_start_idempotent [("b1", 7)] "b1" ⟨.stopped, none, none⟩ [] (.ok 9) 3).1 (by decide),
   (c4_start_idempotent [("b1", 7)] "b1" ⟨.stopped, none, none⟩ [] (.ok 9) 3).2 (by decide)
     [⟨"b1", ⟨.stopped, none, none⟩, ["index.js"], .ok 9, 3⟩] "b1"⟩

/-- Claim C5 counterexample: with the enumeration [b.js, a.js] and no
conventional entry name present, entry resolution returns b.js, the
first file in enumeration order, whereas the claimed stable-sorted
fallback would return a.js. -/
theorem c5_fallback_unsorted :
    findMainFile ["b.js", "a.js"] = some "b.js" ∧
    findMainFileSpec ["b.js", "a.js"] = some "a.js" ∧
    findMainFile ["b.js", "a.js"] ≠ findMainFileSpec ["b.js", "a.js"] := by
  decide

/-- Claim C5 amended: entry resolution probes the fixed ordered list
index.js, app.js, main.js, bot.js and returns the first of those
present in the sandbox — for every split of the list into earlier
names all absent and a present name, that name is the result; failing
all four it returns the first enumerated file ending in .js in the
order the directory listing reports them (not sorted); when neither
exists there is no entry file and start fails with EntryNotFound. -/
theorem c5_entry_resolution (listing : List String) :
    (findMainFile listing = none ↔
      ((∀ c ∈ possibleFiles, c ∉ listing) ∧ ∀ f ∈ listing, strEndsWith f ".js" = false)) ∧
    (∀ ps c qs, possibleFiles = ps ++ c :: qs → (∀ d ∈ ps, d ∉ listing) → c ∈ listing →
      findMainFile listing = some c) ∧
    ("index.js" ∈ listing → findMainFile listing = some "index.js") ∧
    ((∀ c ∈ possibleFiles, c ∉ listing) →
      findMainFile listing = (listing.filter (fun f => strEndsWith f ".js")).head?) ∧
    (∀ procs botId bot spawnRes now, procs.lookup botId = none →
      findMainFile listing = none →
      (startBotI procs botId bot listing spawnRes now).outcome = .entryNotFound) := by
  refine ⟨?_, ?_, ?_, ?_, ?_⟩
  · cases hfind : possibleFiles.find? (fun f => listing.contains f) with
    | some f =>
      have hf : f ∈ listing := by
        have hp := List.find?_some hfind
        simpa [List.elem_iff] using hp
      have hfm : f ∈ possibleFiles := List.mem_of_find?_eq_some hfind
      rw [findMainFile, hfind]
      constructor
      · intro hc
        exact absurd hc (by simp)
      · intro hc
        exact absurd hf (hc.1 f hfm)
    | none =>
      rw [findMainFile, hfind]
      have hnone : ∀ c ∈ possibleFiles, c ∉ listing := by
        intro c hc hmem
        have := List.find?_eq_none.mp hfind c hc
        simp [List.elem_iff] at this
        exact this hmem
      simp only [List.head?_eq_none_iff, List.filter_eq_nil_iff]
      constructor
      · intro hc
        refine ⟨hnone, ?_⟩
        intro f hfl
        have := hc f hfl
        simpa using this
      · intro hc f hfl
        simp [hc.2 f hfl]
  · intro ps c qs heq hps hc
    have hfind : possibleFiles.find? (fun f => listing.contains f) = some c := by
      rw [heq, List.find?_append]
      have hpsnone : ps.find? (fun f => listing.contains f) = none := by
        rw [List.find?_eq_none]
        intro d hd
        simp [List.elem_iff]
        exact hps d hd
      rw [hpsnone, Option.none_or]
      exact List.find?_cons_of_pos _ (by simpa [List.elem_iff] using hc)
    rw [findMainFile, hfind]
  · intro hidx
    rw [findMainFile, possibleFiles]
    rw [List.find?_cons_of_pos _ (by simpa [List.elem_iff] using hidx)]
  · intro hnone
    have hfind : possibleFiles.find? (fun f => listing.contains f) = none := by
      rw [List.find?_eq_none]
      intro c hc
      simp [List.elem_iff]
      exact hnone c hc
    rw [findMainFile, hfind]
  · intro procs botId bot spawnRes now hlook hentry
    rw [startBotI.eq_def, hlook, hentry]
    simp

theorem c5_entry_witness :
    findMainFile ["zz.js", "app.js", "bot.js"] = some "app.js" ∧
    findMainFile ["b.js", "a.js"] =
      (["b.js", "a.js"].filter (fun f => strEndsWith f ".js")).head? :=
  ⟨(c5_entry_resolution ["zz.js", "app.js", "bot.js"]).2.1 ["index.js"] "app.js"
      ["main.js", "bot.js"] rfl (by decide) (by decide),
   (c5_entry_resolution ["b.js", "a.js"]).2.2.2.1 (by decide)⟩

/-- Claim C6: every produced directory listing is ordered with all
directories before all files and same-kind entries ascending by name;
in particular a sandbox with file b.txt and directory a lists the
directory a first. -/
theorem c6_listing_sorted (items : List FSEntry) :
    (getDirectoryStructure items).Pairwise
      (fun a b => (b.kind = .directory → a.kind = .directory) ∧
        (a.kind = b.kind → strLE a.name b.name = true)) ∧
    getDirectoryStructure [⟨"b.txt", false, 5⟩, ⟨"a", true, 0⟩] =
      [⟨"a", .directory, 0, ""⟩, ⟨"b.txt", .file, 5, ".txt"⟩] := by
  constructor
  · haveI : IsTotal DirEntry entryLERel :=
      ⟨fun a b => by
        have := entryLE_total a b
        rcases Bool.or_eq_true_iff.mp this with h | h
        · exact Or.inl h
        · exact Or.inr h⟩
    haveI : IsTrans DirEntry entryLERel :=
      ⟨fun a b c hab hbc => entryLE_trans a b c hab hbc⟩
    refine List.Pairwise.imp ?_ (List.sorted_insertionSort entryLERel _)
    intro a b h
    rcases a with ⟨an, ak, asz, ae⟩
    rcases b with ⟨bn, bk, bsz, be⟩
    cases ak <;> cases bk <;> simp [entryLERel, entryLE] at h ⊢ <;> exact h
  · decide

/-- Claim C7: once the owner's workload count has reached the tier
quota, creation is rejected as a conflict and the state is returned
unchanged: no sandbox directory is added and no registry record is
written. -/
theorem c7_quota_rejection (st : TenantState) (tier ownerId name : String)
    (content : Option String) (h : st.records.length ≥ getBotLimit tier) :
    createBot st tier ownerId (some name) content = (.conflict, st) := by
  rw [createBot.eq_def]
  simp only []
  rw [if_pos h]

theorem c7_witness :
    createBot ⟨[["bots", "u", "one"]], ["one"]⟩ "free" "u" (some "two") (some "x") =
      (.conflict, ⟨[["bots", "u", "one"]], ["one"]⟩) :=
  c7_quota_rejection ⟨[["bots", "u", "one"]], ["one"]⟩ "free" "u" "two" (some "x")
    (by decide)

/-- Claim C8 counterexample: for the whitespace-only input consisting
of a single space, the raw input reaches the lookup and fails as an
unknown code, while its trimmed-and-uppercased rendering is empty and
is rejected as missing input, so redeem of the two is not equal. -/
theorem c8_whitespace_counterexample :
    redeem [] (" ".toList) 0 = .error .notFound ∧
    redeem [] (trimChars (upperChars (" ".toList))) 0 = .error .missingCode ∧
    redeem [] (" ".toList) 0 ≠ redeem [] (trimChars (upperChars (" ".toList))) 0 := by
  decide

/-- Claim C8 amended: for every input whose trimmed form is nonempty,
redeeming the raw input is identical to redeeming its trimmed and
upper-cased rendering; in particular the padded lowercase rendering
of a fresh code AB12CD redeems identically to AB12CD itself. -/
theorem c8_redeem_normalizes (store : List AuthCode) (s : List Char) (now : Nat)
    (h : trimChars s ≠ []) :
    redeem store s now = redeem store (trimChars (upperChars s)) now ∧
    redeem store (" ab12cd ".toList) now = redeem store ("AB12CD".toList) now := by
  constructor
  · have hs : s ≠ [] := by
      intro hc
      rw [hc] at h
      exact h rfl
    have ht : trimChars (upperChars s) ≠ [] := by
      rw [trimChars_upperChars]
      exact upperChars_ne_nil _ h
    simp only [redeem, redeemLookup, if_neg hs, if_neg ht, cleanCode_of_normalized]
  · have h1 : (" ab12cd ".toList) ≠ [] := by decide
    have h2 : ("AB12CD".toList) ≠ [] := by decide
    have h3 : cleanCode (" ab12cd ".toList) = cleanCode ("AB12CD".toList) := by decide
    simp only [redeem, redeemLookup, if_neg h1, if_neg h2, h3]

theorem c8_witness :
    redeem [] ("q".toList) 0 = redeem [] (trimChars (upperChars ("q".toList))) 0 :=
  (c8_redeem_normalizes [] ("q".toList) 0 (by decide)).1

/-- Claim C9 counterexample: an OS-level spawn failure delivered as an
asynchronous error event (the ENOENT class) is not surfaced as a
process error: since the source attaches no error-event listener, the
handler proceeds as on success — it registers the handle, persists
status running, and answers started — refuting the claimed universal
surfacing at this concrete input. -/
theorem c9_async_failure_not_surfaced :
    startBotI [] "b1" ⟨.stopped, none, none⟩ ["index.js"] (.asyncFault 4 "ENOENT") 5 =
      ⟨.started, [("b1", 4)], ⟨.running, some 5, none⟩, 1⟩ ∧
    (startBotI [] "b1" ⟨.stopped, none, none⟩ ["index.js"] (.asyncFault 4 "ENOENT") 5).outcome ≠
      .processError ∧
    (startBotI [] "b1" ⟨.stopped, none, none⟩ ["index.js"] (.asyncFault 4 "ENOENT") 5).procs ≠
      [] := by
  decide

/-- Claim C9 amended: a spawn failure thrown synchronously out of the
spawn call is surfaced to the caller as a process error with no handle
registered and nothing persisted; an OS-level spawn failure delivered
asynchronously as an error event is not surfaced — the handler has
already registered the handle, persisted status running, and answered
success, and the source listens for no error event; in either mode no
start call ever attempts more than one spawn, so a spawn is never
retried automatically. -/
theorem c9_spawn_failure (procs : List (String × Nat)) (botId : String) (bot : BotRec)
    (listing : List String) (msg : String) (hd now : Nat)
    (h1 : procs.lookup botId = none) (h2 : (findMainFile listing).isSome) :
    startBotI procs botId bot listing (.syncFault msg) now =
      ⟨.processError, procs, bot, 1⟩ ∧
    startBotI procs botId bot listing (.asyncFault hd msg) now =
      ⟨.started, (botId, hd) :: procs,
        { bot with status := .running, lastStarted := some now }, 1⟩ ∧
    (∀ ps i b l sr n, (startBotI ps i b l sr n).attempts ≤ 1) := by
  obtain ⟨e, he⟩ := Option.isSome_iff_exists.mp h2
  refine ⟨?_, ?_, ?_⟩
  · rw [startBotI.eq_def, h1, he]
    simp
  · rw [startBotI.eq_def, h1, he]
    simp
  · intro ps i b l sr n
    rw [startBotI.eq_def]
    by_cases hs : (ps.lookup i).isSome
    · rw [if_pos hs]
      exact Nat.zero_le 1
    · rw [if_neg hs]
      cases findMainFile l with
      | none => exact Nat.zero_le 1
      | some e2 =>
        cases sr with
        | syncFault _ => exact Nat.le_refl 1
        | ok hd2 => exact Nat.le_refl 1
        | asyncFault hd2 _ => exact Nat.le_refl 1

theorem c9_witness :
    startBotI [] "b1" ⟨.stopped, none, none⟩ ["index.js"] (.syncFault "boom") 5 =
      ⟨.processError, [], ⟨.stopped, none, none⟩, 1⟩ ∧
    startBotI [] "b1" ⟨.stopped, none, none⟩ ["index.js"] (.asyncFault 7 "boom") 5 =
      ⟨.started, [("b1", 7)], ⟨.running, some 5, none⟩, 1⟩ :=
  ⟨(c9_spawn_failure [] "b1" ⟨.stopped, none, none⟩ ["index.js"] "boom" 7 5 rfl
      (by decide)).1,
   (c9_spawn_failure [] "b1" ⟨.stopped, none, none⟩ ["index.js"] "boom" 7 5 rfl
      (by decide)).2.1⟩

/-- Claim C10: stopping a workload with no live handle answers
success and still persists the record with status stopped and a fresh
last-stopped timestamp, leaving the process map untouched. -/
theorem c10_stop_without_handle (procs : List (String × Nat)) (botId : String)
    (bot : BotRec) (now : Nat) (h : procs.lookup botId = none) :
    stopBot procs botId bot now =
      ⟨true, procs, { bot with status := .stopped, lastStopped := some now }⟩ := by
  rw [stopBot, h]
  simp

theorem c10_witness :
    stopBot [] "b1" ⟨.running, some 2, none⟩ 9 = ⟨true, [], ⟨.stopped, some 2, some 9⟩⟩ :=
  c10_stop_without_handle [] "b1" ⟨.running, some 2, none⟩ 9 rfl

end Host
